import Mathlib

/-!
# sp0rkle factoid driver: handlers

A shallow embedding of `sp0rkle/drivers/factdriver/handlers.go` and the
properties of its command protocol, followed by the rendering of an issue
update, `ghUpdate.String` of `drivers/netdriver/github.go`.

Conventions of the embedding.

* In the factoid driver a Go `string` is a text, the list of its characters
  (`Str`); where the source counts bytes (`s[18:]`, `s[8:]`) the characters
  are counted by the length of their UTF-8 encoding (`dropBytes`).
* The part of Unicode's case table above ASCII is not reproduced: it is the
  field `unicodeToLower` of `Env`, and every statement holds for every such
  table.
* In the GitHub poller a Go `string` is the list of its bytes, a byte being
  written as the character with that code; an ASCII literal is its own list
  of bytes, and `utf8` gives the bytes of any other text.
* A handler is a function from the driver state (the factoid collection and
  `lastseen`) to a `Result`: the new state, the lines sent to the IRC
  connection, and the operations issued against the collection, in order.
* What the handlers obtain from outside the file (the key normaliser, the
  value plugins, the outcome of store writes, the random draws, the id of a
  new factoid) is collected in `Env`.
* A Go run-time panic is `none`.
-/

namespace Sp0rkle

/-! ## Strings (package `strings`, `strconv`) -/

/-- A Go string, as the list of its characters. -/
abbrev Str := List Char

/-- Lower-casing of one ASCII character: the capitals `A` to `Z` are folded,
every other character is kept. -/
def lowerChar (c : Char) : Char :=
  if 65 ≤ c.toNat ∧ c.toNat ≤ 90 then Char.ofNat (c.toNat + 32) else c

/-- ASCII lower-casing of a text. -/
def lowerASCII (s : Str) : Str := s.map lowerChar

/-- The function `unicode.ToLower`: on ASCII it folds the capitals `A` to
`Z`; above ASCII it is Unicode's case table, given as `tbl`. -/
def lowerRune (tbl : Char → Char) (c : Char) : Char :=
  if c.toNat < 128 then lowerChar c else tbl c

/-- The function `strings.ToLower`: `unicode.ToLower` mapped over the
characters of the text. -/
def ToLower (tbl : Char → Char) (s : Str) : Str := s.map (lowerRune tbl)

/-- Number of bytes of the UTF-8 encoding of a character. -/
def utf8Len (c : Char) : Nat :=
  if c.toNat < 0x80 then 1 else if c.toNat < 0x800 then 2 else if c.toNat < 0x10000 then 3
  else 4

/-- Number of bytes of a text, `len(s)`. -/
def byteLen (s : Str) : Nat := (s.map utf8Len).sum

/-- The byte slice `s[n:]` of a text of at least `n` bytes: the characters
after the first `n` bytes.  When the cut falls inside the encoding of a
character, each byte left of that character stands as U+FFFD, which is how
the functions of `strings` read such a byte. -/
def dropBytes : Nat → Str → Str
  | _, [] => []
  | n, c :: cs =>
    if n = 0 then c :: cs
    else if utf8Len c ≤ n then dropBytes (n - utf8Len c) cs
    else List.replicate (utf8Len c - n) (Char.ofNat 0xFFFD) ++ cs

/-- The function `strings.HasPrefix`. -/
def HasPrefix (s pre : Str) : Bool := pre.isPrefixOf s

/-- The function `strings.HasSuffix`. -/
def HasSuffix (s suf : Str) : Bool := suf.isSuffixOf s

/-- Search of `strings.Index` from offset `i`: the position of the first
occurrence of `sep` at or after the head of the list, `-1` when there is none. -/
def indexFrom (sep : Str) : Str → Nat → Int
  | [], i => if sep = [] then (i : Int) else -1
  | c :: cs, i => if sep.isPrefixOf (c :: cs) then (i : Int) else indexFrom sep cs (i + 1)

/-- The function `strings.Index`: position of the first `sep` in `s`, or `-1`. -/
def Index (s sep : Str) : Int := indexFrom sep s 0

/-- The text before and the text after the first occurrence of `sep`. -/
def cut (sep : Str) : Str → Option (Str × Str)
  | [] => if sep = [] then some ([], []) else none
  | c :: cs =>
    if sep.isPrefixOf (c :: cs) then some ([], (c :: cs).drop sep.length)
    else (cut sep cs).map (fun p => (c :: p.1, p.2))

/-- The function `strings.Split(s, sep, n)` of the Go release the driver is
written for (a non-empty `sep`, `n ≥ 0`): at most `n` pieces, the last one
holding the unsplit rest; `[s]` when `sep` does not occur. -/
def Split (s sep : Str) : Nat → List Str
  | 0 => []
  | 1 => [s]
  | n + 2 =>
    match cut sep s with
    | none => [s]
    | some (a, b) => a :: Split b sep (n + 1)

/-- White space in the sense of `unicode.IsSpace`. -/
def isSpace (c : Char) : Bool :=
  c.toNat ∈ [9, 10, 11, 12, 13, 32, 0x85, 0xA0, 0x1680, 0x2028, 0x2029, 0x202F, 0x205F, 0x3000]
    || (0x2000 ≤ c.toNat && c.toNat ≤ 0x200A)

/-- The function `strings.TrimSpace`. -/
def TrimSpace (s : Str) : Str :=
  ((s.dropWhile isSpace).reverse.dropWhile isSpace).reverse

/-- The function `strings.Join`. -/
def Join : List Str → Str → Str
  | [], _ => []
  | [a], _ => a
  | a :: b :: rest, sep => a ++ sep ++ Join (b :: rest) sep

/-- Decimal digit test. -/
def isDigit (c : Char) : Bool := 48 ≤ c.toNat && c.toNat ≤ 57

/-- Value of a run of decimal digits. -/
def digitsVal (ds : Str) : Nat := ds.foldl (fun a c => 10 * a + (c.toNat - 48)) 0

/-- Leading sign of a number: whether it is negative, and the text after it. -/
def readSign : Str → Bool × Str
  | '+' :: r => (false, r)
  | '-' :: r => (true, r)
  | r => (false, r)

/-- The function `strconv.Atoi`: an optional sign and decimal digits, within
the range of `int`, which is 32 bits wide in the Go release the driver is
written for.  `none` is a non-nil error. -/
def Atoi (s : Str) : Option Int :=
  let (neg, ds) := readSign s
  if ds = [] ∨ ds.all isDigit = false then none
  else
    let i : Int := if neg then -(digitsVal ds : Int) else (digitsVal ds : Int)
    if -(2 ^ 31) ≤ i ∧ i < 2 ^ 31 then some i else none

/-! ## Single-precision floats -/

/-- A `float32`: not-a-number, an infinity, or the finite value `m * 2 ^ e`.
The sign of zero is not kept (no operation of the driver observes it). -/
inductive F32 where
  | nan
  | inf (neg : Bool)
  | fin (m : Int) (e : Int)
  deriving DecidableEq

namespace F32

/-- The comparison `x < y` of two floats: false when either is not a number. -/
def lt : F32 → F32 → Bool
  | nan, _ => false
  | _, nan => false
  | inf a, inf b => a && !b
  | inf a, fin _ _ => a
  | fin _ _, inf b => !b
  | fin m e, fin n k =>
    decide (m * 2 ^ (e - min e k).toNat < n * 2 ^ (k - min e k).toNat)

/-- The comparison `x <= y` of two floats: false when either is not a number. -/
def le : F32 → F32 → Bool
  | nan, _ => false
  | _, nan => false
  | inf a, inf b => a || !b
  | inf a, fin _ _ => a
  | fin _ _, inf b => !b
  | fin m e, fin n k =>
    decide (m * 2 ^ (e - min e k).toNat ≤ n * 2 ^ (k - min e k).toNat)

/-- The comparison `x > y`. -/
def gt (x y : F32) : Bool := lt y x

/-- The comparison `x == y` of two floats. -/
def eq (x y : F32) : Bool := le x y && le y x

/-- The constant `0.0`. -/
def zero : F32 := fin 0 0

/-- The constant `1.0`. -/
def one : F32 := fin 1 0

/-- Binary logarithm of a natural number, rounded down (`0` for `0`). -/
def ilog2 : Nat → Nat → Nat
  | 0, _ => 0
  | fuel + 1, n => if n < 2 then 0 else ilog2 fuel (n / 2) + 1

/-- Binary logarithm of the fraction `n / d`, rounded down (`n, d > 0`). -/
def floorLog2 (n d : Nat) : Int :=
  let e0 : Int := (ilog2 n n : Int) - (ilog2 d d : Int)
  if n * 2 ^ (-e0).toNat < d * 2 ^ e0.toNat then e0 - 1 else e0

/-- The integer nearest to `a / b`, ties going to the even one. -/
def roundHalfEven (a b : Nat) : Nat :=
  if 2 * (a % b) < b then a / b
  else if b < 2 * (a % b) then a / b + 1
  else if (a / b) % 2 = 0 then a / b else a / b + 1

/-- Rounding to `float32`: the float nearest to `± n / d` (`d > 0`), ties to
even, with a 24-bit significand, gradual underflow below `2 ^ -126` and
overflow to an infinity from `2 ^ 128`. -/
def round (neg : Bool) (n d : Nat) : F32 :=
  if n = 0 then fin 0 0
  else
    let u : Int := max (floorLog2 n d) (-126) - 23
    let M : Nat := roundHalfEven (n * 2 ^ (-u).toNat) (d * 2 ^ u.toNat)
    if 105 ≤ u ∨ (u = 104 ∧ M = 2 ^ 24) then inf neg
    else fin (if neg then -(M : Int) else (M : Int)) u

/-- The conversion `float32(i)` of an integer. -/
def ofInt (i : Int) : F32 := round (decide (i < 0)) i.natAbs 1

/-- The quotient `x / k` of a float by the float of a positive integer
constant `k`. -/
def divNat : F32 → Nat → F32
  | nan, _ => nan
  | inf a, _ => inf a
  | fin m e, k => round (decide (m < 0)) (m.natAbs * 2 ^ e.toNat) (k * 2 ^ (-e).toNat)

/-- The product `x * k` of a float by the float of a positive integer
constant `k`. -/
def mulNat : F32 → Nat → F32
  | nan, _ => nan
  | inf a, _ => inf a
  | fin m e, k => round (decide (m < 0)) (m.natAbs * k * 2 ^ e.toNat) (2 ^ (-e).toNat)

end F32

/-- Comparison of two texts without regard to ASCII letter case. -/
def equalIgnoreCase (a b : Str) : Bool := decide (lowerASCII a = lowerASCII b)

/-- The special values accepted by `strconv.Atof32`. -/
def special (s : Str) : Option F32 :=
  if equalIgnoreCase s "nan".toList then some F32.nan
  else if equalIgnoreCase s "-inf".toList || equalIgnoreCase s "-infinity".toList then
    some (F32.inf true)
  else if equalIgnoreCase s "+inf".toList || equalIgnoreCase s "+infinity".toList
      || equalIgnoreCase s "inf".toList || equalIgnoreCase s "infinity".toList then
    some (F32.inf false)
  else none

/-- The exponent part of a decimal float: empty, or `e`/`E`, an optional sign
and at least one digit, up to the end of the text. -/
def readExponent : Str → Option Int
  | [] => some 0
  | c :: r =>
    if c = 'e' ∨ c = 'E' then
      let (neg, ds) := readSign r
      if ds = [] ∨ ds.all isDigit = false then none
      else some (if neg then -(digitsVal ds : Int) else (digitsVal ds : Int))
    else none

/-- The function `strconv.Atof32`: a special value, or an optional sign,
decimal digits with at most one point and at least one digit, and an optional
exponent; the result is the nearest `float32`.  `none` is a non-nil error
(bad syntax, or a value out of the range of `float32`). -/
def Atof32 (s : Str) : Option F32 :=
  match special s with
  | some v => some v
  | none =>
    let (neg, r) := readSign s
    let ip := r.takeWhile isDigit
    let r1 := r.dropWhile isDigit
    let r2 := match r1 with
      | '.' :: t => t
      | t => t
    let fp := if r1.head? = some '.' then r2.takeWhile isDigit else []
    let r3 := if r1.head? = some '.' then r2.dropWhile isDigit else r1
    if ip ++ fp = [] then none
    else
      match readExponent r3 with
      | none => none
      | some x =>
        let dexp : Int := x - fp.length
        match F32.round neg (digitsVal (ip ++ fp) * 10 ^ dexp.toNat) (10 ^ (-dexp).toNat) with
        | F32.inf _ => none
        | v => some v

/-! ## Lines, factoids and the collection -/

/-- An IRC line as the handlers see it (`base.Line`): the sender, the
command, the two arguments of a `PRIVMSG`/`ACTION` (`Args[0]` the target,
`Args[1]` the text), and whether the bot was addressed. -/
structure Line where
  Nick : Str
  Ident : Str
  Host : Str
  Cmd : Str
  Args0 : Str
  Args1 : Str
  Addressed : Bool
  deriving DecidableEq

/-- The method `Line.Copy`: an independent copy of the line, so that an
assignment to the copy's arguments leaves the original as it was. -/
def Line.Copy (l : Line) : Line := l

/-- Who touched a factoid and where (`db.StorableNick`, `db.StorableChan`). -/
structure Provenance where
  Nick : Str
  Ident : Str
  Host : Str
  Chan : Str
  deriving DecidableEq

/-- Kind of a factoid: a statement or an action. -/
inductive FactoidType where
  | F_FACT
  | F_ACTION
  deriving DecidableEq

/-- Modelled from the spec: the record `factoids.Factoid` (package
`lib/factoids`), with the fields of the data model: id, key, value, kind
(the field `Type` of the source),
chance, the three provenance entries and the access count.  Time stamps are
left out. -/
structure Factoid where
  Id : Str
  Key : Str
  Value : Str
  Kind : FactoidType
  Chance : F32
  Created : Provenance
  Modified : Option Provenance
  Accessed : Option Provenance
  AccessCount : Nat
  deriving DecidableEq

/-- Modelled from the spec: the method `Factoid.Modify`, which updates the
modified-provenance. -/
def Factoid.Modify (f : Factoid) (p : Provenance) : Factoid :=
  { f with Modified := some p }

/-- Modelled from the spec: the method `Factoid.Access`, which updates the
accessed-provenance and increments the access count. -/
def Factoid.Access (f : Factoid) (p : Provenance) : Factoid :=
  { f with Accessed := some p, AccessCount := f.AccessCount + 1 }

/-- An operand of `fmt.Sprintf`. -/
inductive Arg where
  | s (v : Str)
  | d (v : Int)
  | f (v : F32)
  deriving DecidableEq

/-- A message text: a string sent as it is, or a call of `fmt.Sprintf` with
its format and operands (the rendering of the format is left to `fmt`). -/
inductive Text where
  | raw (v : Str)
  | sprintf (format : String) (args : List Arg)
  deriving DecidableEq

/-- A line sent to the IRC connection. -/
inductive Out where
  | Privmsg (target : Str) (text : Text)
  | Action (target : Str) (text : Text)
  deriving DecidableEq

/-- An operation issued against the factoid collection. -/
inductive StoreOp where
  | GetById (id : Str)
  | GetCount (key : Str)
  | GetPseudoRand (key : Str)
  | Find (key : Str)
  | Insert (fact : Factoid)
  | Update (id : Str) (fact : Factoid)
  | Remove (id : Str)
  deriving DecidableEq

/-- The driver state: the factoid collection and the id of the factoid seen
last. -/
structure factoidDriver where
  facts : List Factoid
  lastseen : Str
  deriving DecidableEq

/-- What a handler leaves behind: the driver state, the lines sent, the
operations issued against the collection and the assignments made to the
connection's `Flood` switch, each in order. -/
structure Result where
  fd : factoidDriver
  out : List Out
  ops : List StoreOp
  flood : List Bool
  deriving DecidableEq

/-- What the handlers take from their surroundings. -/
structure Env where
  /-- The key normaliser `ToKey(text, relaxed)`. -/
  ToKey : Str → Bool → Str
  /-- The value plugins `fd.ApplyPlugins(value, line)`. -/
  ApplyPlugins : Str → Line → Str
  /-- The bot's own nick, `bot.Conn.Me.Nick`. -/
  Me : Str
  /-- Unicode's case table `unicode.ToLower` on the characters above ASCII. -/
  unicodeToLower : Char → Char
  /-- Id given to the next new factoid. -/
  newId : Str
  /-- Kind given to the next new factoid. -/
  newType : FactoidType
  /-- Chance given to the next new factoid. -/
  newChance : F32
  /-- Error of the next `Insert`, if the store fails it. -/
  insertErr : Option Str
  /-- Error of the next `Update`, if the store fails it. -/
  updateErr : Option Str
  /-- Error of the next `Remove`, if the store fails it. -/
  removeErr : Option Str
  /-- Failure of the next iteration: after how many results, and the error. -/
  iterErr : Option (Nat × Str)
  /-- Randomness of the first `GetPseudoRand`. -/
  seed1 : Nat
  /-- Randomness of the second `GetPseudoRand`. -/
  seed2 : Nat
  /-- The draw `rand.Float32()`. -/
  rand : F32

/-- Modelled from the spec: the constructor `factoids.NewFactoid`, which
creates a factoid with a new id for a key and a value, with its
created-provenance. -/
def NewFactoid (env : Env) (key val : Str) (p : Provenance) : Factoid :=
  { Id := env.newId, Key := key, Value := val, Kind := env.newType, Chance := env.newChance,
    Created := p, Modified := none, Accessed := none, AccessCount := 0 }

/-- Modelled from the spec: `GetById(id)`, the stored factoid with that id. -/
def GetById (facts : List Factoid) (id : Str) : Option Factoid :=
  facts.find? (fun f => decide (f.Id = id))

/-- Modelled from the spec: `GetCount(key)`, the number of stored factoids
with that key. -/
def GetCount (facts : List Factoid) (key : Str) : Nat :=
  (facts.filter (fun f => decide (f.Key = key))).length

/-- Modelled from the spec: `Find({key})`, the stored factoids with that key,
in the order the iteration yields them. -/
def Find (facts : List Factoid) (key : Str) : List Factoid :=
  facts.filter (fun f => decide (f.Key = key))

/-- Modelled from the spec: `GetPseudoRand(key)`, one of the factoids with
that key, each equally likely, or none when there is no such factoid. -/
def GetPseudoRand (facts : List Factoid) (key : Str) (seed : Nat) : Option Factoid :=
  (Find facts key)[seed % (Find facts key).length]?

/-- Replacement of the first factoid with the given id. -/
def replaceById (id : Str) (fact : Factoid) : List Factoid → List Factoid
  | [] => []
  | f :: rest => if f.Id = id then fact :: rest else f :: replaceById id fact rest

/-- Removal of the first factoid with the given id. -/
def removeById (id : Str) : List Factoid → List Factoid
  | [] => []
  | f :: rest => if f.Id = id then rest else f :: removeById id rest

/-- Modelled from the spec: `Insert(factoid)`, failing when the store fails
or already holds the id. -/
def Insert (err : Option Str) (facts : List Factoid) (fact : Factoid) :
    Except Str (List Factoid) :=
  match err with
  | some e => .error e
  | none =>
    if (GetById facts fact.Id).isSome then .error "duplicate key".toList
    else .ok (facts ++ [fact])

/-- Modelled from the spec: the point update `Update({_id: id}, fact)`,
failing when the store fails or holds no such id. -/
def Update (err : Option Str) (facts : List Factoid) (id : Str) (fact : Factoid) :
    Except Str (List Factoid) :=
  match err with
  | some e => .error e
  | none =>
    if (GetById facts id).isSome then .ok (replaceById id fact facts)
    else .error "not found".toList

/-- Modelled from the spec: the deletion `Remove({_id: id})`, failing when
the store fails or holds no such id. -/
def Remove (err : Option Str) (facts : List Factoid) (id : Str) :
    Except Str (List Factoid) :=
  match err with
  | some e => .error e
  | none =>
    if (GetById facts id).isSome then .ok (removeById id facts)
    else .error "not found".toList

/-- The provenance `db.StorableNick{...}`, `db.StorableChan{...}` of a line. -/
def provenance (line : Line) : Provenance :=
  { Nick := line.Nick, Ident := line.Ident, Host := line.Host, Chan := line.Args0 }

/-! ## The handlers -/

/-- The events the driver registers handlers for (`RegisterHandlers`). -/
inductive Event where
  | fd_lookup
  | fd_add
  | fd_delete
  | fd_replace
  | fd_chance
  | fd_literal
  deriving DecidableEq

set_option linter.unusedVariables false in
/-- The handler `fd_privmsg`: the event it dispatches and the line it passes
to it. -/
def fd_privmsg (env : Env) (line : Line) : Event × Line :=
  if !line.Addressed then (Event.fd_lookup, line)
  else
    let l := ToLower env.unicodeToLower line.Args1
    if Index l ":=".toList ≠ -1 ∨ Index l ":is".toList ≠ -1 then
      (Event.fd_add, line)
    else if HasPrefix l "forget that".toList ∨ HasPrefix l "delete that".toList then
      (Event.fd_delete, line)
    else if HasPrefix l "replace that with ".toList then
      let nl := { line.Copy with Args1 := dropBytes 18 line.Copy.Args1 }
      (Event.fd_replace, line)
    else if HasPrefix l "chance of that is ".toList then
      let nl := { line.Copy with Args1 := dropBytes 18 line.Copy.Args1 }
      (Event.fd_chance, nl)
    else if HasPrefix l "literal ".toList then
      let nl := { line.Copy with Args1 := dropBytes 8 line.Copy.Args1 }
      (Event.fd_literal, nl)
    else (Event.fd_lookup, line)

/-- The handler `fd_action`: actions just trigger a lookup. -/
def fd_action (line : Line) : Event × Line := (Event.fd_lookup, line)

/-- The key and the value `fd_add` reads from a line; `none` when an index
into the split text is out of range. -/
def fd_add_keyval (env : Env) (line : Line) : Option (Str × Str) :=
  if Index line.Args1 ":=".toList ≠ -1 then
    let kv := Split line.Args1 ":=".toList 2
    match kv[0]?, kv[1]? with
    | some kv0, some kv1 => some (env.ToKey kv0 false, TrimSpace kv1)
    | _, _ => none
  else
    let kv := Split line.Args1 ":is".toList 2
    match kv[0]?, kv[1]? with
    | some kv0, some kv1 =>
      some (env.ToKey kv0 false, Join [TrimSpace kv0, "is".toList, TrimSpace kv1] " ".toList)
    | _, _ => none

/-- The handler `fd_add`. -/
def fd_add (env : Env) (fd : factoidDriver) (line : Line) : Option Result :=
  match fd_add_keyval env line with
  | none => none
  | some (key, val) =>
    let fact := NewFactoid env key val (provenance line)
    match Insert env.insertErr fd.facts fact with
    | .ok facts =>
      let count := GetCount facts key
      some { fd := { fd with facts := facts },
             out := [Out.Privmsg line.Args0 (Text.sprintf
               "%s: Woo, I now know %d things about '%s'."
               [Arg.s line.Nick, Arg.d count, Arg.s key])],
             ops := [StoreOp.Insert fact, StoreOp.GetCount key], flood := [] }
    | .error err =>
      some { fd := fd,
             out := [Out.Privmsg line.Args0 (Text.sprintf "Oh no! %s." [Arg.s err])],
             ops := [StoreOp.Insert fact], flood := [] }

/-- The first part of `fd_chance`: the chance read from the line and checked
to lie in `(0.0, 1.0]`, or the reply sent before the handler returns. -/
def fd_chance_parse (line : Line) : Except Out F32 :=
  let str := TrimSpace line.Args1
  let parsed : Except Out F32 :=
    if HasSuffix str "%".toList then
      match Atoi (str.take (str.length - 1)) with
      | none => .error (Out.Privmsg line.Args0 (Text.sprintf
          "%s: '%s' didn't look like a % chance to me." [Arg.s line.Nick, Arg.s str]))
      | some i => .ok ((F32.ofInt i).divNat 100)
    else
      match Atof32 str with
      | none => .error (Out.Privmsg line.Args0 (Text.sprintf
          "%s: '%s' didn't look like a chance to me." [Arg.s line.Nick, Arg.s str]))
      | some c => .ok c
  match parsed with
  | .error o => .error o
  | .ok chance =>
    if chance.gt F32.one || chance.le F32.zero then
      .error (Out.Privmsg line.Args0 (Text.sprintf
        "%s: '%s' was outside possible chance ranges." [Arg.s line.Nick, Arg.s str]))
    else .ok chance

/-- The reply of a follow-up command that finds no factoid in focus. -/
def forgotten (line : Line) : Out :=
  Out.Privmsg line.Args0 (Text.sprintf
    "%s: Whatever that was, I've already forgotten it." [Arg.s line.Nick])

/-- The handler `fd_chance`. -/
def fd_chance (env : Env) (fd : factoidDriver) (line : Line) : Result :=
  match fd_chance_parse line with
  | .error o => { fd := fd, out := [o], ops := [], flood := [] }
  | .ok chance =>
    match GetById fd.facts fd.lastseen with
    | some fact =>
      let old := fact.Chance
      let fact := ({ fact with Chance := chance } : Factoid).Modify (provenance line)
      match Update env.updateErr fd.facts fd.lastseen fact with
      | .ok facts =>
        { fd := { facts := facts, lastseen := [] },
          out := [Out.Privmsg line.Args0 (Text.sprintf
            "%s: '%s' was at %.0f%% chance, now is at %.0f%%."
            [Arg.s line.Nick, Arg.s fact.Key, Arg.f (old.mulNat 100),
             Arg.f (chance.mulNat 100)])],
          ops := [StoreOp.GetById fd.lastseen, StoreOp.Update fd.lastseen fact], flood := [] }
      | .error err =>
        { fd := { fd with lastseen := [] },
          out := [Out.Privmsg line.Args0 (Text.sprintf
            "%s: I failed to replace '%s': %s"
            [Arg.s line.Nick, Arg.s fact.Key, Arg.s err])],
          ops := [StoreOp.GetById fd.lastseen, StoreOp.Update fd.lastseen fact], flood := [] }
    | none =>
      { fd := { fd with lastseen := [] }, out := [forgotten line],
        ops := [StoreOp.GetById fd.lastseen], flood := [] }

/-- The handler `fd_delete`. -/
def fd_delete (env : Env) (fd : factoidDriver) (line : Line) : Result :=
  match GetById fd.facts fd.lastseen with
  | some fact =>
    match Remove env.removeErr fd.facts fd.lastseen with
    | .ok facts =>
      { fd := { facts := facts, lastseen := [] },
        out := [Out.Privmsg line.Args0 (Text.sprintf
          "%s: I forgot that '%s' was '%s'."
          [Arg.s line.Nick, Arg.s fact.Key, Arg.s fact.Value])],
        ops := [StoreOp.GetById fd.lastseen, StoreOp.Remove fd.lastseen], flood := [] }
    | .error err =>
      { fd := { fd with lastseen := [] },
        out := [Out.Privmsg line.Args0 (Text.sprintf
          "%s: I failed to forget '%s': %s"
          [Arg.s line.Nick, Arg.s fact.Key, Arg.s err])],
        ops := [StoreOp.GetById fd.lastseen, StoreOp.Remove fd.lastseen], flood := [] }
  | none =>
    { fd := { fd with lastseen := [] }, out := [forgotten line],
      ops := [StoreOp.GetById fd.lastseen], flood := [] }

/-- The factoids an iteration over the matches of a key yields, and the
error it ends with, if any. -/
def iterate (env : Env) (facts : List Factoid) (key : Str) : List Factoid × Option Str :=
  match env.iterErr with
  | none => (Find facts key, none)
  | some (k, e) => ((Find facts key).take k, some e)

/-- The handler `fd_literal`. -/
def fd_literal (env : Env) (fd : factoidDriver) (line : Line) : Result :=
  let key := env.ToKey line.Args1 false
  let count := GetCount fd.facts key
  if count = 0 then
    { fd := fd,
      out := [Out.Privmsg line.Args0 (Text.sprintf
        "%s: I don't know anything about '%s'." [Arg.s line.Nick, Arg.s key])],
      ops := [StoreOp.GetCount key], flood := [] }
  else if count > 10 ∧ HasPrefix line.Args0 "#".toList then
    { fd := fd,
      out := [Out.Privmsg line.Args0 (Text.sprintf
        "%s: I know too much about '%s', ask me privately." [Arg.s line.Nick, Arg.s key])],
      ops := [StoreOp.GetCount key], flood := [] }
  else
    let f := fun (fact : Factoid) =>
      Out.Privmsg line.Args0 (Text.sprintf "%s: %s" [Arg.s line.Nick, Arg.s fact.Value])
    let tail := match (iterate env fd.facts key).2 with
      | none => []
      | some err => [Out.Privmsg line.Args0 (Text.sprintf
          "%s: Something went wrong: %s" [Arg.s line.Nick, Arg.s err])]
    { fd := fd,
      out := (iterate env fd.facts key).1.map f ++ tail,
      ops := [StoreOp.GetCount key, StoreOp.Find key], flood := [true, false] }

/-- The factoid `fd_lookup` selects for a line, with the selections it asks
the collection for. -/
def fd_lookup_select (env : Env) (fd : factoidDriver) (line : Line) :
    Option Factoid × List StoreOp :=
  let key := env.ToKey line.Args1 (!line.Addressed)
  let fact := GetPseudoRand fd.facts key env.seed1
  if fact = none ∧ line.Cmd = "ACTION".toList then
    if HasSuffix key env.Me then
      let key2 := TrimSpace (key.take (key.length - env.Me.length))
      (GetPseudoRand fd.facts key2 env.seed2,
        [StoreOp.GetPseudoRand key, StoreOp.GetPseudoRand key2])
    else (fact, [StoreOp.GetPseudoRand key])
  else (fact, [StoreOp.GetPseudoRand key])

/-- The reply of `fd_lookup` for a factoid: its value with the plugins
applied, sent as an action or as a message according to its kind. -/
def fd_lookup_reply (env : Env) (fact : Factoid) (line : Line) : Out :=
  let val := env.ApplyPlugins fact.Value line
  if fact.Kind = FactoidType.F_ACTION then Out.Action line.Args0 (Text.raw val)
  else Out.Privmsg line.Args0 (Text.raw val)

/-- The handler `fd_lookup`. -/
def fd_lookup (env : Env) (fd : factoidDriver) (line : Line) : Result :=
  match fd_lookup_select env fd line with
  | (some fact, ops) =>
    if env.rand.lt fact.Chance then
      let fact := fact.Access (provenance line)
      let reply := fd_lookup_reply env fact line
      match Update env.updateErr fd.facts fact.Id fact with
      | .ok facts =>
        { fd := { facts := facts, lastseen := fact.Id }, out := [reply],
          ops := ops ++ [StoreOp.Update fact.Id fact], flood := [] }
      | .error err =>
        { fd := { fd with lastseen := fact.Id },
          out := [Out.Privmsg line.Args0 (Text.sprintf
            "%s: I failed to update '%s', if: $id: %s "
            [Arg.s line.Nick, Arg.s fact.Key, Arg.s fact.Id, Arg.s err]), reply],
          ops := ops ++ [StoreOp.Update fact.Id fact], flood := [] }
    else { fd := fd, out := [], ops := ops, flood := [] }
  | (none, ops) => { fd := fd, out := [], ops := ops, flood := [] }

/-- The handler `fd_replace`. -/
def fd_replace (env : Env) (fd : factoidDriver) (line : Line) : Result :=
  match GetById fd.facts fd.lastseen with
  | some fact =>
    let old := fact.Value
    let fact := ({ fact with Value := TrimSpace line.Args1 } : Factoid).Modify (provenance line)
    match Update env.updateErr fd.facts fd.lastseen fact with
    | .ok facts =>
      { fd := { facts := facts, lastseen := [] },
        out := [Out.Privmsg line.Args0 (Text.sprintf
          "%s: '%s' was '%s', now is '%s'."
          [Arg.s line.Nick, Arg.s fact.Key, Arg.s old, Arg.s fact.Value])],
        ops := [StoreOp.GetById fd.lastseen, StoreOp.Update fd.lastseen fact], flood := [] }
    | .error err =>
      { fd := { fd with lastseen := [] },
        out := [Out.Privmsg line.Args0 (Text.sprintf
          "%s: I failed to replace '%s': %s"
          [Arg.s line.Nick, Arg.s fact.Key, Arg.s err])],
        ops := [StoreOp.GetById fd.lastseen, StoreOp.Update fd.lastseen fact], flood := [] }
  | none =>
    { fd := { fd with lastseen := [] }, out := [forgotten line],
      ops := [StoreOp.GetById fd.lastseen], flood := [] }

/-- The dispatch of an event to the handler registered for it; `none` when
the handler panics. -/
def Dispatch (env : Env) (fd : factoidDriver) : Event × Line → Option Result
  | (Event.fd_lookup, line) => some (fd_lookup env fd line)
  | (Event.fd_add, line) => fd_add env fd line
  | (Event.fd_delete, line) => some (fd_delete env fd line)
  | (Event.fd_replace, line) => some (fd_replace env fd line)
  | (Event.fd_chance, line) => some (fd_chance env fd line)
  | (Event.fd_literal, line) => some (fd_literal env fd line)

/-- The event `bot_privmsg`: `fd_privmsg` and the handler it dispatches to. -/
def bot_privmsg (env : Env) (fd : factoidDriver) (line : Line) : Option Result :=
  Dispatch env fd (fd_privmsg env line)

/-! ## The key normaliser of the design, and sample data -/

/-- ASCII punctuation. -/
def isPunct (c : Char) : Bool :=
  (33 ≤ c.toNat && c.toNat ≤ 47) || (58 ≤ c.toNat && c.toNat ≤ 64)
    || (91 ≤ c.toNat && c.toNat ≤ 96) || (123 ≤ c.toNat && c.toNat ≤ 126)

/-- Removal of the punctuation and white space around a text. -/
def trimPunct (s : Str) : Str :=
  ((s.dropWhile (fun c => isPunct c || isSpace c)).reverse.dropWhile
    (fun c => isPunct c || isSpace c)).reverse

/-- Every run of white space becomes one blank (`seen`: the character
before was white space). -/
def collapseFrom (seen : Bool) : Str → Str
  | [] => []
  | c :: cs =>
    if isSpace c then (if seen then collapseFrom true cs else ' ' :: collapseFrom true cs)
    else c :: collapseFrom false cs

/-- Every run of white space becomes one blank. -/
def collapseSpace (s : Str) : Str := collapseFrom false s

/-- Modelled from the spec: the key normaliser `ToKey(text, relaxed)` of the
driver (not among the handlers): it lower-cases, trims surrounding
punctuation and collapses internal white space; relaxed, it also strips a
trailing mention of the bot's own name `me`. -/
def ToKeySpec (me : Str) (s : Str) (relaxed : Bool) : Str :=
  let k := collapseSpace (trimPunct (lowerASCII s))
  if relaxed ∧ me ≠ [] ∧ HasSuffix k (lowerASCII me) then
    trimPunct (k.take (k.length - me.length))
  else k

/-- A sample of Unicode's case table above ASCII: the dotted capital I
(U+0130) becomes `i`, the Kelvin sign (U+212A) becomes `k`, the Latin-1
capitals U+00C0 to U+00DE (but the multiplication sign) move up by 32, and
every other character is kept. -/
def sampleToLower (c : Char) : Char :=
  if c.toNat = 0x130 then 'i'
  else if c.toNat = 0x212A then 'k'
  else if 0xC0 ≤ c.toNat ∧ c.toNat ≤ 0xDE ∧ c.toNat ≠ 0xD7 then Char.ofNat (c.toNat + 32)
  else c

/-- A sample environment: the normaliser of the design, no plugins, the
sample case table, a store that does not fail, and a draw of `0.5`. -/
def env0 : Env :=
  { ToKey := ToKeySpec "sp0rkle".toList, ApplyPlugins := fun v _ => v, Me := "sp0rkle".toList,
    unicodeToLower := sampleToLower,
    newId := "f2".toList, newType := FactoidType.F_FACT, newChance := F32.one,
    insertErr := none, updateErr := none, removeErr := none, iterErr := none,
    seed1 := 0, seed2 := 0, rand := F32.fin 1 (-1) }

/-- A sample line: `nick` says `text` in `#chan`, addressing the bot. -/
def say (text : String) : Line :=
  { Nick := "nick".toList, Ident := "ident".toList, Host := "host".toList,
    Cmd := "PRIVMSG".toList, Args0 := "#chan".toList, Args1 := text.toList, Addressed := true }

/-- A sample factoid, `k` is `v`, with id `f1`. -/
def fact0 : Factoid :=
  { Id := "f1".toList, Key := "k".toList, Value := "v".toList, Kind := FactoidType.F_FACT,
    Chance := F32.one, Created := provenance (say "k := v"), Modified := none,
    Accessed := none, AccessCount := 0 }

/-- A sample driver state: the sample factoid stored and in focus. -/
def fd0 : factoidDriver := { facts := [fact0], lastseen := "f1".toList }

/-- A sample driver state: one factoid, of chance `0.25`, nothing in focus. -/
def fdQuarter : factoidDriver :=
  { facts := [{ fact0 with Chance := F32.fin 1 (-2) }], lastseen := [] }

/-- A sample collection: eleven factoids with the key `k`. -/
def facts11 : List Factoid :=
  (List.range 11).map (fun i =>
    { fact0 with Id := List.replicate (i + 1) 'f', Value := List.replicate (i + 1) 'v' })

/-- A sample driver state: the sample factoid stored, nothing in focus. -/
def fd1 : factoidDriver := { facts := [fact0], lastseen := [] }

/-! ## The GitHub poller: the text of an update (`drivers/netdriver/github.go`)

In this part a string is the list of its bytes, a byte being written as the
character with that code: `len`, `strings.Index` and the slice `comment[:idx]`
of the source count bytes.  An ASCII literal is its own list of bytes; `utf8`
gives the bytes of any other text. -/

/-- The UTF-8 encoding of a character, each byte written as the character
with that code. -/
def utf8Char (c : Char) : Str :=
  if c.toNat < 0x80 then [c]
  else if c.toNat < 0x800 then
    [Char.ofNat (0xC0 + c.toNat / 64), Char.ofNat (0x80 + c.toNat % 64)]
  else if c.toNat < 0x10000 then
    [Char.ofNat (0xE0 + c.toNat / 4096), Char.ofNat (0x80 + c.toNat / 64 % 64),
      Char.ofNat (0x80 + c.toNat % 64)]
  else
    [Char.ofNat (0xF0 + c.toNat / 262144), Char.ofNat (0x80 + c.toNat / 4096 % 64),
      Char.ofNat (0x80 + c.toNat / 64 % 64), Char.ofNat (0x80 + c.toNat % 64)]

/-- The bytes of a text: its UTF-8 encoding. -/
def utf8 : Str → Str
  | [] => []
  | c :: cs => utf8Char c ++ utf8 cs

/-- The constant `githubIssuesURL`. -/
def githubIssuesURL : Str := "https://github.com/fluffle/sp0rkle/issues".toList

/-- A `time.Time` as far as `String` reads it: whether it is the zero time,
and its rendering under `timeFormat`. -/
structure Time where
  IsZero : Bool
  Format : Str
  deriving DecidableEq

/-- The record `ghUpdate`; each of its strings is a list of bytes. -/
structure ghUpdate where
  issue : Int
  updated : Time
  closed : Time
  nick : Str
  channel : Str
  title : Str
  comment : Str
  commenter : Str
  deriving DecidableEq

/-- The verb `%d` of `fmt.Sprintf` for an integer. -/
def itoa (i : Int) : Str :=
  if i < 0 then '-' :: (Nat.repr i.natAbs).toList else (Nat.repr i.toNat).toList

/-- The slice `s[:idx]`: the first `idx` elements, or a run-time panic
(`none`) when `idx` is negative or beyond the length of `s`. -/
def sliceTo (s : Str) (idx : Int) : Option Str :=
  if 0 ≤ idx ∧ idx ≤ (s.length : Int) then some (s.take idx.toNat) else none

/-- The comment part of `ghUpdate.String` (the body of `if u.comment != ""`
up to the `append`): the marker `trunc` and the comment as it is rendered, or
`none` when the slice panics. -/
def ghUpdate.truncated (u : ghUpdate) : Option (Str × Str) :=
  if u.comment.length > 100 then
    let idx : Int := Index u.comment " ".toList + 100
    if idx ≥ 100 then
      match sliceTo u.comment idx with
      | none => none
      | some c => some (" (truncated) ".toList, c ++ "...".toList)
    else some (" ".toList, u.comment)
  else some (" ".toList, u.comment)

/-- The method `ghUpdate.String`; `none` is a run-time panic. -/
def ghUpdate.String (u : ghUpdate) : Option Str :=
  let s : List Str :=
    ["that issue ".toList ++ githubIssuesURL ++ "/".toList ++ itoa u.issue
      ++ " (".toList ++ u.title ++ ")".toList]
  let s : List Str :=
    if !u.closed.IsZero then s ++ ["was closed at ".toList ++ u.closed.Format ++ ".".toList]
    else s ++ ["was updated at ".toList ++ u.updated.Format ++ ".".toList]
  if u.comment ≠ [] then
    match u.truncated with
    | none => none
    | some (trunc, comment) =>
      some (Join (s ++ ["Recent".toList ++ trunc ++ "comment by ".toList ++ u.commenter
        ++ ": '".toList ++ comment ++ "'".toList]) " ".toList)
  else some (Join s " ".toList)

/-- A sample update: issue 7, updated and not closed, with the given comment
by `fluffle`. -/
def update0 (comment : Str) : ghUpdate :=
  { issue := 7, updated := { IsZero := false, Format := "12:00:00, Monday 2 January 2006".toList },
    closed := { IsZero := true, Format := [] }, nick := "nick".toList,
    channel := "#chan".toList, title := "t".toList, comment := comment,
    commenter := "fluffle".toList }

/-- A sample comment of 102 characters whose first blank is at index 5:
`fixed ` and 96 times `x`. -/
def comment102 : Str := "fixed ".toList ++ List.replicate 96 'x'

/-! ## The dispatcher of the design -/

/-- The commands of the design's dispatcher. -/
inductive Command where
  | Add
  | Delete
  | Replace
  | SetChance
  | Literal
  | Lookup
  deriving DecidableEq

/-- The command an event of the driver carries out. -/
def Event.command : Event → Command
  | Event.fd_add => Command.Add
  | Event.fd_delete => Command.Delete
  | Event.fd_replace => Command.Replace
  | Event.fd_chance => Command.SetChance
  | Event.fd_literal => Command.Literal
  | Event.fd_lookup => Command.Lookup

/-- Whether the character `c` of a text is the keyword character `k` when
letter case is ignored: `c` is `k` itself, or `k` is a small ASCII letter and
`c` is its capital, or `c` lies above ASCII and Unicode's case table `tbl`
lower-cases it to `k`. -/
def sameLetter (tbl : Char → Char) (c k : Char) : Bool :=
  decide (c = k) || decide (97 ≤ k.toNat ∧ k.toNat ≤ 122 ∧ c.toNat + 32 = k.toNat)
    || decide (128 ≤ c.toNat ∧ tbl c = k)

/-- Whether a text starts with a keyword, letter case ignored. -/
def startsWithFold (tbl : Char → Char) : Str → Str → Bool
  | [], _ => true
  | _ :: _, [] => false
  | k :: ks, c :: cs => sameLetter tbl c k && startsWithFold tbl ks cs

/-- Whether a text contains a keyword, letter case ignored. -/
def containsFold (tbl : Char → Char) (kw : Str) : Str → Bool
  | [] => startsWithFold tbl kw []
  | c :: cs => startsWithFold tbl kw (c :: cs) || containsFold tbl kw cs

/-- A keyword written in ASCII without capitals. -/
def plainKeyword (kw : Str) : Bool :=
  kw.all (fun k => decide (k.toNat < 128) && !decide (65 ≤ k.toNat ∧ k.toNat ≤ 90))

/-- The decision list of the design, in priority order: a case-insensitive
test of the text, and the command it selects. -/
def specRules (tbl : Char → Char) : List ((Str → Bool) × Command) :=
  [(fun t => containsFold tbl ":=".toList t || containsFold tbl ":is".toList t, Command.Add),
   (fun t => startsWithFold tbl "forget that".toList t
      || startsWithFold tbl "delete that".toList t, Command.Delete),
   (fun t => startsWithFold tbl "replace that with ".toList t, Command.Replace),
   (fun t => startsWithFold tbl "chance of that is ".toList t, Command.SetChance),
   (fun t => startsWithFold tbl "literal ".toList t, Command.Literal)]

/-- The command of the first rule that matches, `Lookup` when none does. -/
def firstMatch : List ((Str → Bool) × Command) → Str → Command
  | [], _ => Command.Lookup
  | (p, c) :: rest, t => if p t then c else firstMatch rest t

/-- The classification of the design: an un-addressed message is a lookup,
an addressed one goes through the decision list. -/
def specClassify (tbl : Char → Char) (addressed : Bool) (text : Str) : Command :=
  if addressed then firstMatch (specRules tbl) text else Command.Lookup

/-! ## Facts about the string functions -/

theorem hasPrefix_iff (s pre : Str) : HasPrefix s pre = true ↔ pre <+: s := by
  unfold HasPrefix
  exact List.isPrefixOf_iff_prefix

theorem indexFrom_ne_iff (sep s : Str) (i : Nat) :
    indexFrom sep s i ≠ -1 ↔ sep <:+: s := by
  induction s generalizing i with
  | nil =>
    unfold indexFrom
    by_cases h : sep = []
    · simp only [h, if_true, List.infix_nil, iff_true]
      omega
    · simp [h]
  | cons c cs ih =>
    unfold indexFrom
    by_cases h : sep.isPrefixOf (c :: cs) = true
    · rw [if_pos h]
      have hp : sep <+: c :: cs := List.isPrefixOf_iff_prefix.1 h
      constructor
      · intro _
        exact hp.isInfix
      · intro _
        omega
    · rw [if_neg h, ih (i + 1), List.infix_cons_iff]
      have hp : ¬ sep <+: c :: cs := fun hp => h (List.isPrefixOf_iff_prefix.2 hp)
      constructor
      · intro hq
        exact Or.inr hq
      · intro hq
        rcases hq with hq | hq
        · exact absurd hq hp
        · exact hq

theorem index_ne_iff (s sep : Str) : Index s sep ≠ -1 ↔ sep <:+: s :=
  indexFrom_ne_iff sep s 0

theorem cut_first (sep : Str) (l r s : Str) (hs : s = l ++ sep ++ r)
    (hmin : ∀ l2 r2 : Str, s = l2 ++ sep ++ r2 → l.length ≤ l2.length) :
    cut sep s = some (l, r) := by
  induction l generalizing s with
  | nil =>
    cases s with
    | nil =>
      have h1 : sep = [] := by
        cases sep with
        | nil => rfl
        | cons a t => simp at hs
      have h2 : r = [] := by
        subst h1
        simpa using hs.symm
      subst h1
      subst h2
      simp [cut]
    | cons c cs =>
      have hp : sep.isPrefixOf (c :: cs) = true := by
        rw [List.isPrefixOf_iff_prefix, hs]
        exact ⟨r, by simp⟩
      unfold cut
      rw [if_pos hp, hs]
      simp
  | cons x l0 ih =>
    subst hs
    have hnp : ¬ (sep.isPrefixOf (x :: (l0 ++ sep ++ r)) = true) := by
      intro hp
      rw [List.isPrefixOf_iff_prefix] at hp
      obtain ⟨t, ht⟩ := hp
      have := hmin [] t (by simpa using ht.symm)
      simp at this
    have hrec : cut sep (l0 ++ sep ++ r) = some (l0, r) := by
      apply ih (l0 ++ sep ++ r) rfl
      intro l2 r2 h2
      have := hmin (x :: l2) r2 (by simp [h2])
      simpa using this
    show cut sep (x :: (l0 ++ sep ++ r)) = some (x :: l0, r)
    unfold cut
    rw [if_neg hnp, hrec]
    rfl

theorem split_two_of_cut (sep s l r : Str) (h : cut sep s = some (l, r)) :
    Split s sep 2 = [l, r] := by
  simp [Split, h]

theorem infix_of_eq (sep l r s : Str) (hs : s = l ++ sep ++ r) : sep <:+: s :=
  ⟨l, r, hs.symm⟩

/-! ## Replace: the text handed to `fd_replace` -/

/-- Whenever `fd_privmsg` dispatches `fd_replace`, it passes the line it was
given, unchanged: the chopped copy `nl` is not the line dispatched. -/
theorem fd_privmsg_replace_line (env : Env) (line : Line)
    (h : (fd_privmsg env line).1 = Event.fd_replace) : (fd_privmsg env line).2 = line := by
  revert h
  unfold fd_privmsg
  dsimp only
  repeat' split
  all_goals intro h
  all_goals first | rfl | exact Event.noConfusion h

/-- C1: on the addressed message `replace that with new`, with the sample
factoid in focus, `fd_privmsg` dispatches `fd_replace` with the whole text, and
the value stored is `replace that with new`, not the remainder `new`. -/
theorem replace_stores_whole_text :
    fd_privmsg env0 (say "replace that with new")
        = (Event.fd_replace, say "replace that with new")
      ∧ (bot_privmsg env0 fd0 (say "replace that with new")).map
          (fun r => r.fd.facts.map (fun f => f.Value))
        = some ["replace that with new".toList]
      ∧ HasPrefix "replace that with new".toList "replace that with ".toList = true := by
  decide

/-! ## Focus after a follow-up command -/

/-- C2, as stated, fails: a `SetChance` whose expression does not parse
(`abc`), or parses out of range (`50`), leaves the factoid `f1` in focus. -/
theorem chance_error_keeps_focus :
    (fd_chance env0 fd0 (say "abc")).fd.lastseen = "f1".toList
      ∧ (fd_chance env0 fd0 (say "50")).fd.lastseen = "f1".toList
      ∧ "f1".toList ≠ ([] : Str) := by
  decide

/-- C2, amended: `fd_delete` and `fd_replace` leave the focus empty on every
exit path; `fd_chance` leaves it empty on every exit path behind the checks of
the chance expression (no factoid in focus, update done, update failed), and
leaves it as it was when the expression is unparseable or out of range. -/
theorem focus_after_followup (env : Env) (fd : factoidDriver) (line : Line) :
    (fd_delete env fd line).fd.lastseen = []
      ∧ (fd_replace env fd line).fd.lastseen = []
      ∧ (fd_chance env fd line).fd.lastseen =
          (match fd_chance_parse line with
           | .ok _ => []
           | .error _ => fd.lastseen) := by
  refine ⟨?_, ?_, ?_⟩
  · unfold fd_delete
    split
    · split <;> rfl
    · rfl
  · unfold fd_replace
    split
    · dsimp only
      split <;> rfl
    · rfl
  · unfold fd_chance
    cases fd_chance_parse line with
    | error o => rfl
    | ok chance =>
      dsimp only
      split
      · split <;> rfl
      · rfl

/-! ## Focus after an add -/

/-- C3, as stated, fails: adding `foo := bar` with nothing in focus inserts
the factoid `f2` and leaves the focus empty. -/
theorem add_leaves_focus_empty :
    (fd_add env0 fd1 (say "foo := bar")).map
        (fun r => (r.fd.facts.map (fun f => f.Id), r.fd.lastseen))
      = some (["f1".toList, "f2".toList], [])
      ∧ env0.newId = "f2".toList ∧ "f2".toList ≠ ([] : Str) := by
  decide

/-- C3, amended: for every add whose insert succeeds, `fd_add` returns with
the inserted collection and with the focus it found: it does not set the
focus. -/
theorem add_keeps_focus (env : Env) (fd : factoidDriver) (line : Line)
    (key val : Str) (facts : List Factoid)
    (hkv : fd_add_keyval env line = some (key, val))
    (hins : Insert env.insertErr fd.facts (NewFactoid env key val (provenance line))
      = .ok facts) :
    ∃ r, fd_add env fd line = some r ∧ r.fd.facts = facts
      ∧ r.fd.lastseen = fd.lastseen := by
  unfold fd_add
  simp only [hkv, hins]
  exact ⟨_, rfl, rfl, rfl⟩

/-- An instance of `add_keeps_focus`: adding `foo := bar` while `f1` is in
focus. -/
theorem add_keeps_focus_witness :
    fd_add_keyval env0 (say "foo := bar") = some ("foo".toList, "bar".toList)
      ∧ ∃ r, fd_add env0 fd0 (say "foo := bar") = some r
        ∧ r.fd.facts = [fact0, NewFactoid env0 "foo".toList "bar".toList
            (provenance (say "foo := bar"))]
        ∧ r.fd.lastseen = "f1".toList :=
  ⟨by decide,
   add_keeps_focus env0 fd0 (say "foo := bar") "foo".toList "bar".toList _ (by decide) rfl⟩

/-! ## Chance expressions -/

/-- A chance that passes the checks of `fd_chance` is not above one and not
at or below zero, in the sense of the float comparisons. -/
theorem fd_chance_parse_guard (line : Line) (c : F32) (h : fd_chance_parse line = .ok c) :
    (c.gt F32.one || c.le F32.zero) = false := by
  unfold fd_chance_parse at h
  dsimp only at h
  split at h
  · cases h
  · split at h
    · cases h
    · rename_i hg
      injection h with h
      subst h
      simpa using hg

/-- A chance that passes the checks of `fd_chance` is not-a-number or lies in
`(0, 1]`. -/
theorem fd_chance_parse_range (line : Line) (c : F32) (h : fd_chance_parse line = .ok c) :
    c = F32.nan ∨ (F32.lt F32.zero c = true ∧ F32.le c F32.one = true) := by
  have hg := fd_chance_parse_guard line c h
  cases c with
  | nan => exact Or.inl rfl
  | inf b => cases b <;> simp [F32.gt, F32.lt, F32.le, F32.one, F32.zero] at hg
  | fin m e =>
    right
    simp only [F32.gt, F32.lt, F32.le, F32.one, F32.zero, Bool.or_eq_false_iff,
      decide_eq_false_iff_not, decide_eq_true_eq] at hg ⊢
    rw [min_comm 0 e] at hg
    rw [min_comm 0 e]
    constructor <;> omega

/-- Sample chance expressions: `50%`, `100%` and `0.5` pass the checks, with
the values `0.5`, `1.0` and `0.5`; `0%`, `101%`, `50`, `0`, `abc` and `%` do
not. -/
theorem fd_chance_parse_samples :
    (fd_chance_parse (say "50%")).toOption = some (F32.fin 8388608 (-24))
      ∧ (fd_chance_parse (say "100%")).toOption = some (F32.fin 8388608 (-23))
      ∧ (fd_chance_parse (say "0.5")).toOption = some (F32.fin 8388608 (-24))
      ∧ (fd_chance_parse (say "0%")).toOption = none
      ∧ (fd_chance_parse (say "101%")).toOption = none
      ∧ (fd_chance_parse (say "50")).toOption = none
      ∧ (fd_chance_parse (say "0")).toOption = none
      ∧ (fd_chance_parse (say "abc")).toOption = none
      ∧ (fd_chance_parse (say "%")).toOption = none := by
  decide

/-- C4: on `chance of that is NaN`, with the sample factoid in focus, the
chance expression passes both checks and the stored chance becomes
not-a-number, which is neither above zero nor at most one. -/
theorem chance_nan_is_stored :
    (bot_privmsg env0 fd0 (say "chance of that is NaN")).map
        (fun r => (r.fd.facts.map (fun f => f.Chance), r.ops))
      = some ([F32.nan], [StoreOp.GetById "f1".toList,
          StoreOp.Update "f1".toList
            { fact0 with Chance := F32.nan,
                         Modified := some (provenance (say "chance of that is NaN")) }])
      ∧ F32.lt F32.zero F32.nan = false ∧ F32.le F32.nan F32.one = false := by
  decide

/-! ## Follow-up commands with nothing in focus -/

/-- C5, as stated, fails: with nothing in focus, a `SetChance` whose
expression does not parse replies that the text did not look like a chance,
not that the factoid is forgotten. -/
theorem chance_error_reply_without_focus :
    GetById fd1.facts fd1.lastseen = none
      ∧ (fd_chance env0 fd1 (say "abc")).out
        = [Out.Privmsg "#chan".toList (Text.sprintf
            "%s: '%s' didn't look like a chance to me."
            [Arg.s "nick".toList, Arg.s "abc".toList])]
      ∧ (fd_chance env0 fd1 (say "abc")).out
        ≠ [Out.Privmsg "#chan".toList (Text.sprintf
            "%s: Whatever that was, I've already forgotten it." [Arg.s "nick".toList])] := by
  decide

/-- C5, amended: when the focus refers to no stored factoid (in particular
when it is empty), `fd_delete` and `fd_replace` reply that the factoid is
already forgotten, and so does `fd_chance` for every chance expression that
passes its checks, while for an expression that fails them it sends the reply
of the failed check; in all three the only operation on the collection is the
fetch by id at most, the collection is unchanged, and so is the count of
every key. -/
theorem followup_without_focus (env : Env) (fd : factoidDriver) (line : Line)
    (h : GetById fd.facts fd.lastseen = none) :
    ((fd_delete env fd line).out = [Out.Privmsg line.Args0 (Text.sprintf
          "%s: Whatever that was, I've already forgotten it." [Arg.s line.Nick])]
        ∧ (fd_delete env fd line).ops = [StoreOp.GetById fd.lastseen]
        ∧ (fd_delete env fd line).fd.facts = fd.facts
        ∧ ∀ key, GetCount (fd_delete env fd line).fd.facts key = GetCount fd.facts key)
      ∧ ((fd_replace env fd line).out = [Out.Privmsg line.Args0 (Text.sprintf
          "%s: Whatever that was, I've already forgotten it." [Arg.s line.Nick])]
        ∧ (fd_replace env fd line).ops = [StoreOp.GetById fd.lastseen]
        ∧ (fd_replace env fd line).fd.facts = fd.facts
        ∧ ∀ key, GetCount (fd_replace env fd line).fd.facts key = GetCount fd.facts key)
      ∧ ((fd_chance env fd line).out =
          [match fd_chance_parse line with
           | .ok _ => Out.Privmsg line.Args0 (Text.sprintf
               "%s: Whatever that was, I've already forgotten it." [Arg.s line.Nick])
           | .error o => o]
        ∧ (∀ op ∈ (fd_chance env fd line).ops, op = StoreOp.GetById fd.lastseen)
        ∧ (fd_chance env fd line).fd.facts = fd.facts
        ∧ ∀ key, GetCount (fd_chance env fd line).fd.facts key = GetCount fd.facts key) := by
  refine ⟨?_, ?_, ?_⟩
  · unfold fd_delete
    rw [h]
    exact ⟨rfl, rfl, rfl, fun _ => rfl⟩
  · unfold fd_replace
    rw [h]
    exact ⟨rfl, rfl, rfl, fun _ => rfl⟩
  · unfold fd_chance
    cases fd_chance_parse line with
    | error o =>
      refine ⟨rfl, ?_, rfl, fun _ => rfl⟩
      intro op hop
      simp at hop
    | ok chance =>
      dsimp only
      rw [h]
      refine ⟨rfl, ?_, rfl, fun _ => rfl⟩
      intro op hop
      simpa using hop

/-- An instance of `followup_without_focus`: the sample collection with
nothing in focus, and the chance expression `50%`. -/
theorem followup_without_focus_witness :
    GetById fd1.facts fd1.lastseen = none
      ∧ (fd_delete env0 fd1 (say "forget that")).out
        = [Out.Privmsg "#chan".toList (Text.sprintf
            "%s: Whatever that was, I've already forgotten it." [Arg.s "nick".toList])]
      ∧ (fd_replace env0 fd1 (say "new")).fd.facts = [fact0]
      ∧ (fd_chance env0 fd1 (say "50%")).out
        = [Out.Privmsg "#chan".toList (Text.sprintf
            "%s: Whatever that was, I've already forgotten it." [Arg.s "nick".toList])] :=
  ⟨by decide,
   (followup_without_focus env0 fd1 (say "forget that") (by decide)).1.1,
   (followup_without_focus env0 fd1 (say "new") (by decide)).2.1.2.2.1,
   by
     have hc := (followup_without_focus env0 fd1 (say "50%") (by decide)).2.2.1
     rw [hc]
     decide⟩

/-! ## Classification -/

theorem lowerChar_upper (n : Nat) (h1 : 65 ≤ n) (h2 : n ≤ 90) :
    (lowerChar (Char.ofNat n)).toNat = n + 32 := by
  interval_cases n <;> rfl

theorem char_eq_of_toNat (a b : Char) (h : a.toNat = b.toNat) : a = b := by
  rw [← Char.ofNat_toNat a, ← Char.ofNat_toNat b, h]

/-- A character lower-cases to a keyword character exactly when it is that
character with letter case ignored. -/
theorem lowerRune_eq_iff (tbl : Char → Char) (c k : Char) (hk : k.toNat < 128)
    (hk2 : ¬ (65 ≤ k.toNat ∧ k.toNat ≤ 90)) :
    lowerRune tbl c = k ↔ sameLetter tbl c k = true := by
  unfold lowerRune sameLetter
  simp only [Bool.or_eq_true, decide_eq_true_eq]
  by_cases hc : c.toNat < 128
  · rw [if_pos hc]
    by_cases hu : 65 ≤ c.toNat ∧ c.toNat ≤ 90
    · have hl : (lowerChar c).toNat = c.toNat + 32 := by
        have := lowerChar_upper c.toNat hu.1 hu.2
        rwa [Char.ofNat_toNat] at this
      constructor
      · intro h
        rw [h] at hl
        exact Or.inl (Or.inr ⟨by omega, by omega, hl.symm⟩)
      · intro h
        rcases h with (h | h) | h
        · rw [h] at hu
          exact absurd hu hk2
        · exact char_eq_of_toNat _ _ (by omega)
        · omega
    · have hl : lowerChar c = c := by
        unfold lowerChar
        rw [if_neg hu]
      rw [hl]
      constructor
      · intro h
        exact Or.inl (Or.inl h)
      · intro h
        rcases h with (h | h) | h
        · exact h
        · omega
        · omega
  · rw [if_neg hc]
    constructor
    · intro h
      exact Or.inr ⟨by omega, h⟩
    · intro h
      rcases h with (h | h) | h
      · rw [h] at hc
        exact absurd hk hc
      · omega
      · exact h.2

theorem plainKeyword_cons (k : Char) (ks : Str) (h : plainKeyword (k :: ks) = true) :
    (k.toNat < 128 ∧ ¬ (65 ≤ k.toNat ∧ k.toNat ≤ 90)) ∧ plainKeyword ks = true := by
  unfold plainKeyword at h ⊢
  simp only [List.all_cons, Bool.and_eq_true, decide_eq_true_eq, Bool.not_eq_true',
    decide_eq_false_iff_not] at h
  exact ⟨h.1, h.2⟩

/-- The lower-cased text starts with a keyword exactly when the text starts
with it, letter case ignored. -/
theorem hasPrefix_toLower_iff (tbl : Char → Char) (kw : Str) (hkw : plainKeyword kw = true)
    (t : Str) : HasPrefix (ToLower tbl t) kw = true ↔ startsWithFold tbl kw t = true := by
  unfold HasPrefix ToLower
  induction kw generalizing t with
  | nil => simp [startsWithFold]
  | cons k ks ih =>
    obtain ⟨hk, hks⟩ := plainKeyword_cons k ks hkw
    cases t with
    | nil => simp [startsWithFold, List.isPrefixOf]
    | cons c cs =>
      simp only [List.map_cons, List.isPrefixOf, startsWithFold, Bool.and_eq_true, beq_iff_eq]
      rw [ih hks cs, ← lowerRune_eq_iff tbl c k hk.1 hk.2]
      constructor
      · intro h
        exact ⟨h.1.symm, h.2⟩
      · intro h
        exact ⟨h.1.symm, h.2⟩

/-- The lower-cased text contains a keyword exactly when the text contains
it, letter case ignored. -/
theorem index_toLower_ne_iff (tbl : Char → Char) (kw : Str) (hkw : plainKeyword kw = true)
    (t : Str) : Index (ToLower tbl t) kw ≠ -1 ↔ containsFold tbl kw t = true := by
  rw [index_ne_iff]
  induction t with
  | nil =>
    have h := hasPrefix_toLower_iff tbl kw hkw []
    rw [hasPrefix_iff] at h
    simp only [containsFold]
    rw [← h]
    simp [ToLower, List.infix_nil, List.prefix_nil]
  | cons c cs ih =>
    have h := hasPrefix_toLower_iff tbl kw hkw (c :: cs)
    rw [hasPrefix_iff] at h
    simp only [containsFold, Bool.or_eq_true]
    rw [← h, ← ih]
    exact List.infix_cons_iff

/-- A text has at least as many bytes as characters. -/
theorem length_le_byteLen (t : Str) : t.length ≤ byteLen t := by
  unfold byteLen
  induction t with
  | nil => simp
  | cons c cs ih =>
    have h1 : 1 ≤ utf8Len c := by
      unfold utf8Len
      split_ifs <;> omega
    simp only [List.length_cons, List.map_cons, List.sum_cons]
    omega

/-- A text whose lower-casing starts with a keyword has at least as many
bytes as the keyword has characters: the byte slices of `fd_privmsg` stay
within the text. -/
theorem byteLen_of_hasPrefix (tbl : Char → Char) (kw t : Str)
    (h : HasPrefix (ToLower tbl t) kw = true) : kw.length ≤ byteLen t := by
  rw [hasPrefix_iff] at h
  have h1 := h.length_le
  unfold ToLower at h1
  rw [List.length_map] at h1
  exact Nat.le_trans h1 (length_le_byteLen t)

/-- On a text written in ASCII, `strings.ToLower` is the ASCII lower-casing,
whatever Unicode's case table is above ASCII. -/
theorem ToLower_ascii (tbl : Char → Char) (t : Str) (h : ∀ c ∈ t, c.toNat < 128) :
    ToLower tbl t = lowerASCII t := by
  unfold ToLower lowerASCII
  apply List.map_congr_left
  intro c hc
  unfold lowerRune
  rw [if_pos (h c hc)]

/-- On a line whose text is written in ASCII, `fd_privmsg` does not depend on
Unicode's case table. -/
theorem fd_privmsg_ascii (env env2 : Env) (line : Line)
    (h : ∀ c ∈ line.Args1, c.toNat < 128) : fd_privmsg env line = fd_privmsg env2 line := by
  unfold fd_privmsg
  rw [ToLower_ascii _ _ h, ToLower_ascii _ _ h]

/-- Sample classifications under the sample case table: a dotted capital I
is read as `i`, and the eight bytes cut off `lİteral k` are its first
seven characters, so that the blank stays. -/
theorem fd_privmsg_unicode_samples :
    fd_privmsg env0 (say "lİteral k") = (Event.fd_literal, say " k")
      ∧ (fd_privmsg env0 (say "foo :İs bar")).1 = Event.fd_add
      ∧ fd_privmsg env0 (say "LITERAL k") = (Event.fd_literal, say "k")
      ∧ fd_privmsg env0 (say "Chance Of That İs 50%") = (Event.fd_chance, say " 50%") := by
  decide

/-- C6: the event `fd_privmsg` dispatches is the command the design's ordered
decision list selects by its case-insensitive tests, for every line and every
case table of Unicode above ASCII; an un-addressed line is always dispatched
to the lookup; and the addressed `forget that := x` is an add. -/
theorem fd_privmsg_classifies (env : Env) (line : Line) :
    (fd_privmsg env line).1.command
        = specClassify env.unicodeToLower line.Addressed line.Args1
      ∧ (fd_privmsg env { line with Addressed := false }).1 = Event.fd_lookup
      ∧ (fd_privmsg env (say "forget that := x")).1 = Event.fd_add := by
  have main : ∀ l : Line, (fd_privmsg env l).1.command
      = specClassify env.unicodeToLower l.Addressed l.Args1 := by
    intro l
    have e1 := index_toLower_ne_iff env.unicodeToLower ":=".toList (by decide) l.Args1
    have e2 := index_toLower_ne_iff env.unicodeToLower ":is".toList (by decide) l.Args1
    have e3 := hasPrefix_toLower_iff env.unicodeToLower "forget that".toList (by decide)
      l.Args1
    have e4 := hasPrefix_toLower_iff env.unicodeToLower "delete that".toList (by decide)
      l.Args1
    have e5 := hasPrefix_toLower_iff env.unicodeToLower "replace that with ".toList
      (by decide) l.Args1
    have e6 := hasPrefix_toLower_iff env.unicodeToLower "chance of that is ".toList
      (by decide) l.Args1
    have e7 := hasPrefix_toLower_iff env.unicodeToLower "literal ".toList (by decide) l.Args1
    unfold fd_privmsg specClassify
    cases ha : l.Addressed with
    | false => rfl
    | true =>
      simp only [Bool.not_true, Bool.false_eq_true, if_false, if_true, specRules, firstMatch,
        Bool.or_eq_true, e1, e2, e3, e4, e5, e6, e7]
      repeat' split
      all_goals rfl
  refine ⟨main line, rfl, ?_⟩
  have h := main (say "forget that := x")
  have hs : specClassify env.unicodeToLower (say "forget that := x").Addressed
      (say "forget that := x").Args1 = Command.Add := by
    unfold specClassify specRules firstMatch
    rfl
  rw [hs] at h
  cases he : (fd_privmsg env (say "forget that := x")).1 with
  | fd_add => rfl
  | fd_lookup => rw [he] at h; cases h
  | fd_delete => rw [he] at h; cases h
  | fd_replace => rw [he] at h; cases h
  | fd_chance => rw [he] at h; cases h
  | fd_literal => rw [he] at h; cases h

/-! ## Literal -/

/-- C7: `fd_literal` on the normalised key with count `n`.  If `n = 0` the
only line sent is the unknown-key reply.  If `n > 10` and the target starts
with `#`, the only line sent is the ask-me-privately refusal, and the count is
the only operation on the collection.  Otherwise the matches are iterated and
each stored value is sent as it is, with the nick before it: all of them when
the iteration succeeds, the ones yielded before the error, then the error
reply, when it fails.  Neither the chance nor the plugins take part. -/
theorem fd_literal_cases (env : Env) (fd : factoidDriver) (line : Line) :
    (GetCount fd.facts (env.ToKey line.Args1 false) = 0 →
        (fd_literal env fd line).out = [Out.Privmsg line.Args0 (Text.sprintf
            "%s: I don't know anything about '%s'."
            [Arg.s line.Nick, Arg.s (env.ToKey line.Args1 false)])]
          ∧ (fd_literal env fd line).ops = [StoreOp.GetCount (env.ToKey line.Args1 false)])
      ∧ (10 < GetCount fd.facts (env.ToKey line.Args1 false) →
          HasPrefix line.Args0 "#".toList = true →
        (fd_literal env fd line).out = [Out.Privmsg line.Args0 (Text.sprintf
            "%s: I know too much about '%s', ask me privately."
            [Arg.s line.Nick, Arg.s (env.ToKey line.Args1 false)])]
          ∧ (fd_literal env fd line).ops = [StoreOp.GetCount (env.ToKey line.Args1 false)])
      ∧ (GetCount fd.facts (env.ToKey line.Args1 false) ≠ 0 →
          (GetCount fd.facts (env.ToKey line.Args1 false) ≤ 10
            ∨ HasPrefix line.Args0 "#".toList = false) →
        (fd_literal env fd line).ops = [StoreOp.GetCount (env.ToKey line.Args1 false),
            StoreOp.Find (env.ToKey line.Args1 false)]
          ∧ (env.iterErr = none →
              (fd_literal env fd line).out
                = (fd.facts.filter (fun f => decide (f.Key = env.ToKey line.Args1 false))).map
                    (fun f => Out.Privmsg line.Args0
                      (Text.sprintf "%s: %s" [Arg.s line.Nick, Arg.s f.Value])))
          ∧ (∀ k e, env.iterErr = some (k, e) →
              (fd_literal env fd line).out
                = ((fd.facts.filter
                      (fun f => decide (f.Key = env.ToKey line.Args1 false))).take k).map
                    (fun f => Out.Privmsg line.Args0
                      (Text.sprintf "%s: %s" [Arg.s line.Nick, Arg.s f.Value]))
                  ++ [Out.Privmsg line.Args0 (Text.sprintf
                      "%s: Something went wrong: %s" [Arg.s line.Nick, Arg.s e])])) := by
  refine ⟨?_, ?_, ?_⟩
  · intro h0
    unfold fd_literal
    simp [h0]
  · intro h10 hpub
    have hne : GetCount fd.facts (env.ToKey line.Args1 false) ≠ 0 := by omega
    unfold fd_literal
    dsimp only
    rw [if_neg hne, if_pos ⟨h10, hpub⟩]
    exact ⟨rfl, rfl⟩
  · intro hne hor
    have hnot : ¬ (GetCount fd.facts (env.ToKey line.Args1 false) > 10
        ∧ HasPrefix line.Args0 "#".toList = true) := by
      rintro ⟨h1, h2⟩
      rcases hor with h | h
      · omega
      · rw [h2] at h
        cases h
    have hres : fd_literal env fd line =
        Result.mk fd
          ((iterate env fd.facts (env.ToKey line.Args1 false)).1.map
              (fun f => Out.Privmsg line.Args0
                (Text.sprintf "%s: %s" [Arg.s line.Nick, Arg.s f.Value]))
            ++ (match (iterate env fd.facts (env.ToKey line.Args1 false)).2 with
                | none => []
                | some err => [Out.Privmsg line.Args0 (Text.sprintf
                    "%s: Something went wrong: %s" [Arg.s line.Nick, Arg.s err])]))
          [StoreOp.GetCount (env.ToKey line.Args1 false),
            StoreOp.Find (env.ToKey line.Args1 false)]
          [true, false] := by
      unfold fd_literal
      simp only [hne, if_false, hnot]
    rw [hres]
    refine ⟨rfl, ?_, ?_⟩
    · intro hnone
      simp [iterate, hnone, Find]
    · intro k e hsome
      simp [iterate, hsome, Find]

/-- An instance of `fd_literal_cases` in each of its cases: no factoid, eleven
factoids asked for in a channel, eleven factoids asked for in private, and one
factoid asked for in a channel. -/
theorem fd_literal_cases_witness :
    (fd_literal env0 { facts := [], lastseen := [] } (say "k")).out
        = [Out.Privmsg "#chan".toList (Text.sprintf
            "%s: I don't know anything about '%s'." [Arg.s "nick".toList, Arg.s "k".toList])]
      ∧ (fd_literal env0 { facts := facts11, lastseen := [] } (say "k")).ops
        = [StoreOp.GetCount "k".toList]
      ∧ (fd_literal env0 { facts := facts11, lastseen := [] }
            { say "k" with Args0 := "nick".toList }).out
        = (facts11.filter (fun f => decide (f.Key = "k".toList))).map
            (fun f => Out.Privmsg "nick".toList
              (Text.sprintf "%s: %s" [Arg.s "nick".toList, Arg.s f.Value]))
      ∧ (fd_literal env0 fd0 (say "k")).ops
        = [StoreOp.GetCount "k".toList, StoreOp.Find "k".toList] :=
  ⟨((fd_literal_cases env0 { facts := [], lastseen := [] } (say "k")).1 (by decide)).1,
   ((fd_literal_cases env0 { facts := facts11, lastseen := [] } (say "k")).2.1
      (by decide) (by decide)).2,
   ((fd_literal_cases env0 { facts := facts11, lastseen := [] }
      { say "k" with Args0 := "nick".toList }).2.2 (by decide) (Or.inr (by decide))).2.1 rfl,
   ((fd_literal_cases env0 fd0 (say "k")).2.2 (by decide) (Or.inl (by decide))).1⟩

/-! ## Lookup: the chance gate -/

theorem two_pow_toNat (e lo : Int) (h : lo ≤ e) :
    ((2 : ℚ) ^ (e - lo).toNat) = 2 ^ e / 2 ^ lo := by
  rw [← zpow_natCast, Int.toNat_of_nonneg (by omega), zpow_sub₀ (by norm_num)]

theorem scaled_lt_iff (m n e k : Int) :
    m * 2 ^ (e - min e k).toNat < n * 2 ^ (k - min e k).toNat
      ↔ (m : ℚ) * 2 ^ e < (n : ℚ) * 2 ^ k := by
  have hp : (0 : ℚ) < 2 ^ (min e k) := zpow_pos (by norm_num) _
  rw [← Int.cast_lt (R := ℚ)]
  push_cast
  rw [two_pow_toNat e _ (min_le_left e k), two_pow_toNat k _ (min_le_right e k),
    ← mul_div_assoc, ← mul_div_assoc, div_lt_div_iff_of_pos_right hp]

theorem scaled_le_iff (m n e k : Int) :
    m * 2 ^ (e - min e k).toNat ≤ n * 2 ^ (k - min e k).toNat
      ↔ (m : ℚ) * 2 ^ e ≤ (n : ℚ) * 2 ^ k := by
  have hp : (0 : ℚ) < 2 ^ (min e k) := zpow_pos (by norm_num) _
  rw [← Int.cast_le (R := ℚ)]
  push_cast
  rw [two_pow_toNat e _ (min_le_left e k), two_pow_toNat k _ (min_le_right e k),
    ← mul_div_assoc, ← mul_div_assoc, div_le_div_iff_of_pos_right hp]

/-- The float comparisons chain: `x < y` and `y <= z` give `x < z`. -/
theorem F32.lt_of_lt_of_le (x y z : F32) (h1 : F32.lt x y = true) (h2 : F32.le y z = true) :
    F32.lt x z = true := by
  cases x with
  | nan => simp [F32.lt] at h1
  | inf a =>
    cases y with
    | nan => simp [F32.lt] at h1
    | inf b =>
      cases z with
      | nan => simp [F32.le] at h2
      | inf c =>
        cases a <;> cases b <;> cases c <;> simp [F32.lt, F32.le] at h1 h2 ⊢
      | fin _ _ =>
        cases a <;> cases b <;> simp [F32.lt, F32.le] at h1 h2 ⊢
    | fin _ _ =>
      cases z with
      | nan => simp [F32.le] at h2
      | inf c => cases a <;> cases c <;> simp [F32.lt, F32.le] at h1 h2 ⊢
      | fin _ _ => cases a <;> simp [F32.lt] at h1 ⊢
  | fin m e =>
    cases y with
    | nan => simp [F32.lt] at h1
    | inf b =>
      cases z with
      | nan => simp [F32.le] at h2
      | inf c => cases b <;> cases c <;> simp [F32.lt, F32.le] at h1 h2 ⊢
      | fin _ _ => cases b <;> simp [F32.lt, F32.le] at h1 h2
    | fin n k =>
      cases z with
      | nan => simp [F32.le] at h2
      | inf c => cases c <;> simp [F32.lt, F32.le] at h2 ⊢
      | fin p j =>
        simp only [F32.lt, F32.le, decide_eq_true_eq] at h1 h2 ⊢
        rw [scaled_lt_iff] at h1 ⊢
        rw [scaled_le_iff] at h2
        exact h1.trans_le h2

/-- The selections of `fd_lookup` are not updates. -/
theorem fd_lookup_select_ops (env : Env) (fd : factoidDriver) (line : Line) :
    ∀ op ∈ (fd_lookup_select env fd line).2, ∃ key, op = StoreOp.GetPseudoRand key := by
  intro op hop
  unfold fd_lookup_select at hop
  dsimp only at hop
  split at hop
  · split at hop
    · simp only [List.mem_cons, List.mem_singleton, List.not_mem_nil, or_false] at hop
      rcases hop with h | h
      · exact ⟨_, h⟩
      · exact ⟨_, h⟩
    · simp only [List.mem_singleton] at hop
      exact ⟨_, hop⟩
  · simp only [List.mem_singleton] at hop
    exact ⟨_, hop⟩

/-- What `fd_lookup` does on a hit. -/
theorem fd_lookup_hit (env : Env) (fd : factoidDriver) (line : Line) (f : Factoid)
    (ops : List StoreOp) (hsel : fd_lookup_select env fd line = (some f, ops))
    (hit : env.rand.lt f.Chance = true) :
    fd_lookup_reply env f line ∈ (fd_lookup env fd line).out
      ∧ (fd_lookup env fd line).fd.lastseen = f.Id := by
  unfold fd_lookup
  rw [hsel]
  simp only [hit, if_true]
  have hr : fd_lookup_reply env (f.Access (provenance line)) line = fd_lookup_reply env f line :=
    rfl
  split
  · exact ⟨by simp [hr], rfl⟩
  · exact ⟨by simp [hr], rfl⟩

/-- What `fd_lookup` does on a miss. -/
theorem fd_lookup_miss (env : Env) (fd : factoidDriver) (line : Line) (f : Factoid)
    (ops : List StoreOp) (hsel : fd_lookup_select env fd line = (some f, ops))
    (miss : env.rand.lt f.Chance = false) :
    fd_lookup env fd line = { fd := fd, out := [], ops := ops, flood := [] } := by
  unfold fd_lookup
  rw [hsel]
  simp [miss]

/-- C8: for the factoid `f` selected for a line and the draw `r`, `fd_lookup`
sends the reply for `f` and sets the focus to the id of `f` if and only if
`r < f.Chance`.  A factoid whose chance is `1.0` is sent for every draw in
`[0, 1)`.  When `r < f.Chance` does not hold (as when `r >= f.Chance`),
nothing is sent, the driver state (collection and focus) is as before, and no
update is issued. -/
theorem fd_lookup_gate (env : Env) (fd : factoidDriver) (line : Line) (f : Factoid)
    (ops : List StoreOp) (hsel : fd_lookup_select env fd line = (some f, ops)) :
    ((fd_lookup_reply env f line ∈ (fd_lookup env fd line).out
          ∧ (fd_lookup env fd line).fd.lastseen = f.Id)
        ↔ env.rand.lt f.Chance = true)
      ∧ (F32.eq f.Chance F32.one = true →
          F32.le F32.zero env.rand = true → F32.lt env.rand F32.one = true →
          fd_lookup_reply env f line ∈ (fd_lookup env fd line).out
            ∧ (fd_lookup env fd line).fd.lastseen = f.Id)
      ∧ (F32.le f.Chance env.rand = true → env.rand.lt f.Chance = false)
      ∧ (env.rand.lt f.Chance = false →
          (fd_lookup env fd line).out = []
            ∧ (fd_lookup env fd line).fd = fd
            ∧ ∀ op ∈ (fd_lookup env fd line).ops, ∀ id fact, op ≠ StoreOp.Update id fact) := by
  refine ⟨⟨?_, fd_lookup_hit env fd line f ops hsel⟩, ?_, ?_, ?_⟩
  · intro h
    by_contra hlt
    have hmiss : env.rand.lt f.Chance = false := by simpa using hlt
    rw [fd_lookup_miss env fd line f ops hsel hmiss] at h
    simp at h
  · intro h1 _ hr
    apply fd_lookup_hit env fd line f ops hsel
    unfold F32.eq at h1
    simp only [Bool.and_eq_true] at h1
    exact F32.lt_of_lt_of_le _ _ _ hr h1.2
  · intro hle
    by_contra hlt
    have hlt2 : env.rand.lt f.Chance = true := by simpa using hlt
    have := F32.lt_of_lt_of_le _ _ _ hlt2 hle
    cases hr : env.rand with
    | nan => rw [hr] at hlt2; simp [F32.lt] at hlt2
    | inf a => rw [hr] at this; cases a <;> simp [F32.lt] at this
    | fin m e => rw [hr] at this; simp [F32.lt] at this
  · intro hmiss
    rw [fd_lookup_miss env fd line f ops hsel hmiss]
    refine ⟨rfl, rfl, ?_⟩
    intro op hop id fact he
    have hops : ops = (fd_lookup_select env fd line).2 := by rw [hsel]
    have hop2 : op ∈ (fd_lookup_select env fd line).2 := by
      rw [← hops]
      exact hop
    obtain ⟨key, hk⟩ := fd_lookup_select_ops env fd line op hop2
    rw [hk] at he
    cases he

/-- An instance of `fd_lookup_gate`: the draw `0.5` against the sample
factoid, of chance `1.0`, which is sent, and against a factoid of chance
`0.25`, which is not. -/
theorem fd_lookup_gate_witness :
    fd_lookup_select env0 fd1 (say "k") = (some fact0, [StoreOp.GetPseudoRand "k".toList])
      ∧ ((fd_lookup_reply env0 fact0 (say "k") ∈ (fd_lookup env0 fd1 (say "k")).out
            ∧ (fd_lookup env0 fd1 (say "k")).fd.lastseen = "f1".toList)
          ↔ env0.rand.lt fact0.Chance = true)
      ∧ (fd_lookup_reply env0 fact0 (say "k") ∈ (fd_lookup env0 fd1 (say "k")).out
          ∧ (fd_lookup env0 fd1 (say "k")).fd.lastseen = "f1".toList)
      ∧ (fd_lookup env0 fdQuarter (say "k")).out = []
      ∧ (fd_lookup env0 fdQuarter (say "k")).fd = fdQuarter :=
  ⟨by decide,
   (fd_lookup_gate env0 fd1 (say "k") fact0 [StoreOp.GetPseudoRand "k".toList]
     (by decide)).1,
   (fd_lookup_gate env0 fd1 (say "k") fact0 [StoreOp.GetPseudoRand "k".toList]
     (by decide)).2.1 (by decide) (by decide) (by decide),
   ((fd_lookup_gate env0 fdQuarter (say "k") { fact0 with Chance := F32.fin 1 (-2) }
     [StoreOp.GetPseudoRand "k".toList] (by decide)).2.2.2 (by decide)).1,
   ((fd_lookup_gate env0 fdQuarter (say "k") { fact0 with Chance := F32.fin 1 (-2) }
     [StoreOp.GetPseudoRand "k".toList] (by decide)).2.2.2 (by decide)).2.1⟩

/-! ## Add: the key and the value stored -/

theorem cut_eq_none_iff (sep s : Str) : cut sep s = none ↔ ¬ sep <:+: s := by
  induction s with
  | nil =>
    unfold cut
    by_cases h : sep = []
    · simp [h]
    · simp [h]
  | cons c cs ih =>
    unfold cut
    by_cases h : sep.isPrefixOf (c :: cs) = true
    · rw [if_pos h]
      have hp : sep <+: c :: cs := List.isPrefixOf_iff_prefix.1 h
      simp [hp.isInfix]
    · rw [if_neg h, Option.map_eq_none', ih, List.infix_cons_iff]
      have hp : ¬ sep <+: c :: cs := fun hp => h (List.isPrefixOf_iff_prefix.2 hp)
      constructor
      · intro hq hor
        rcases hor with hor | hor
        · exact hp hor
        · exact hq hor
      · intro hq hinf
        exact hq (Or.inr hinf)

theorem split_two_of_absent (sep s : Str) (h : ¬ sep <:+: s) : Split s sep 2 = [s] := by
  simp [Split, (cut_eq_none_iff sep s).2 h]

/-- The two indexed parts `kv[0]`, `kv[1]` of `fd_add` exist exactly when the
text itself, in the letter case it was written, contains `:=` or `:is`. -/
theorem fd_add_keyval_eq_none_iff (env : Env) (line : Line) :
    fd_add_keyval env line = none
      ↔ ¬ ":=".toList <:+: line.Args1 ∧ ¬ ":is".toList <:+: line.Args1 := by
  unfold fd_add_keyval
  by_cases h1 : ":=".toList <:+: line.Args1
  · have hi : Index line.Args1 ":=".toList ≠ -1 := (index_ne_iff _ _).2 h1
    rw [if_pos hi]
    cases hc : cut ":=".toList line.Args1 with
    | none => exact absurd h1 ((cut_eq_none_iff _ _).1 hc)
    | some p =>
      obtain ⟨a, b⟩ := p
      dsimp only
      rw [split_two_of_cut _ _ _ _ hc]
      constructor
      · intro h
        simp at h
      · intro h
        exact absurd h1 h.1
  · have hi : ¬ Index line.Args1 ":=".toList ≠ -1 := fun h => h1 ((index_ne_iff _ _).1 h)
    rw [if_neg hi]
    by_cases h2 : ":is".toList <:+: line.Args1
    · cases hc : cut ":is".toList line.Args1 with
      | none => exact absurd h2 ((cut_eq_none_iff _ _).1 hc)
      | some p =>
        obtain ⟨a, b⟩ := p
        dsimp only
        rw [split_two_of_cut _ _ _ _ hc]
        constructor
        · intro h
          simp at h
        · intro h
          exact absurd h2 h.2
    · dsimp only
      rw [split_two_of_absent _ _ h2]
      constructor
      · intro _
        exact ⟨h1, h2⟩
      · intro _
        rfl

/-- C9, as stated, fails: adding `K :is great` stores the key `k` and the
value `K is great`, which is not `k is great`. -/
theorem add_is_keeps_raw_left :
    (fd_add env0 fd1 (say "K :is great")).map
        (fun r => r.fd.facts.map (fun f => (f.Key, f.Value)))
      = some [("k".toList, "v".toList), ("k".toList, "K is great".toList)]
      ∧ "K is great".toList ≠ Join ["k".toList, "is".toList, "great".toList] " ".toList := by
  decide

/-- C9, amended: for a line whose text is `l ++ ":=" ++ r` with this the
first `:=`, the key is the non-relaxed normalisation of `l` and the value is
`r` trimmed; for a line whose text contains no `:=` and is `l ++ ":is" ++ r`
with this the first `:is`, the key is the non-relaxed normalisation of `l` and
the value is `l` trimmed, ` is `, and `r` trimmed.  When the insert succeeds,
the factoid appended to the collection carries that key and that value.  So
`k :is great` stores the value `k is great`. -/
theorem fd_add_keyval_spec (env : Env) (fd : factoidDriver) (line : Line) (l r : Str) :
    (line.Args1 = l ++ ":=".toList ++ r →
        (∀ l2 r2 : Str, line.Args1 = l2 ++ ":=".toList ++ r2 → l.length ≤ l2.length) →
        fd_add_keyval env line = some (env.ToKey l false, TrimSpace r))
      ∧ (¬ ":=".toList <:+: line.Args1 → line.Args1 = l ++ ":is".toList ++ r →
        (∀ l2 r2 : Str, line.Args1 = l2 ++ ":is".toList ++ r2 → l.length ≤ l2.length) →
        fd_add_keyval env line
          = some (env.ToKey l false, TrimSpace l ++ " is ".toList ++ TrimSpace r))
      ∧ (∀ key val facts, fd_add_keyval env line = some (key, val) →
          Insert env.insertErr fd.facts (NewFactoid env key val (provenance line)) = .ok facts →
          ∃ fact, fact.Key = key ∧ fact.Value = val
            ∧ (fd_add env fd line).map (fun res => res.fd.facts) = some (fd.facts ++ [fact]))
      ∧ (fd_add_keyval env (say "k :is great")).map (fun p => p.2)
          = some "k is great".toList := by
  refine ⟨?_, ?_, ?_, ?_⟩
  · intro hs hmin
    have hi : Index line.Args1 ":=".toList ≠ -1 :=
      (index_ne_iff _ _).2 (infix_of_eq _ l r _ hs)
    unfold fd_add_keyval
    rw [if_pos hi]
    dsimp only
    rw [split_two_of_cut _ _ _ _ (cut_first _ l r _ hs hmin)]
    rfl
  · intro hno hs hmin
    have hi : ¬ Index line.Args1 ":=".toList ≠ -1 := fun h => hno ((index_ne_iff _ _).1 h)
    unfold fd_add_keyval
    rw [if_neg hi]
    dsimp only
    rw [split_two_of_cut _ _ _ _ (cut_first _ l r _ hs hmin)]
    simp [Join]
  · intro key val facts hkv hins
    refine ⟨NewFactoid env key val (provenance line), rfl, rfl, ?_⟩
    unfold fd_add
    simp only [hkv, hins, Option.map_some']
    unfold Insert at hins
    split at hins
    · cases hins
    · split at hins
      · cases hins
      · injection hins with hins
        rw [← hins]
  · have hk : fd_add_keyval env (say "k :is great")
        = some (env.ToKey "k ".toList false, "k is great".toList) := by
      unfold fd_add_keyval
      rw [if_neg (by decide)]
      have hsplit : Split (say "k :is great").Args1 ":is".toList 2
          = ["k ".toList, " great".toList] := by decide
      rw [hsplit]
      have hj : Join [TrimSpace "k ".toList, "is".toList, TrimSpace " great".toList] " ".toList
          = "k is great".toList := by decide
      simp only [List.getElem?_cons_zero, List.getElem?_cons_succ, hj]
    rw [hk]
    rfl

/-- An instance of `fd_add_keyval_spec`: `foo := bar := baz` and
`foo :is bar`, added to the sample collection. -/
theorem fd_add_keyval_spec_witness :
    fd_add_keyval env0 (say "foo := bar := baz")
        = some (env0.ToKey "foo ".toList false, TrimSpace " bar := baz".toList)
      ∧ fd_add_keyval env0 (say "foo :is bar")
        = some (env0.ToKey "foo ".toList false,
            TrimSpace "foo ".toList ++ " is ".toList ++ TrimSpace " bar".toList)
      ∧ ∃ fact, fact.Key = "foo".toList ∧ fact.Value = "foo is bar".toList
          ∧ (fd_add env0 fd1 (say "foo :is bar")).map (fun res => res.fd.facts)
            = some (fd1.facts ++ [fact]) :=
  ⟨(fd_add_keyval_spec env0 fd1 (say "foo := bar := baz") "foo ".toList
      " bar := baz".toList).1 (by decide) (by
        intro l2 r2 h
        by_contra hlt
        have hlen : l2.length < 4 := by simpa using hlt
        have h4 := congrArg (List.take 6) h
        rcases l2 with _ | ⟨a, _ | ⟨b, _ | ⟨c, _ | ⟨d, t⟩⟩⟩⟩
        · simp [say] at h4
        · simp [say] at h4
        · simp [say] at h4
        · simp [say] at h4
        · simp at hlen
          omega),
   (fd_add_keyval_spec env0 fd1 (say "foo :is bar") "foo ".toList " bar".toList).2.1
      (by decide) (by decide) (by
        intro l2 r2 h
        by_contra hlt
        have hlen : l2.length < 4 := by simpa using hlt
        have h4 := congrArg (List.take 7) h
        rcases l2 with _ | ⟨a, _ | ⟨b, _ | ⟨c, _ | ⟨d, t⟩⟩⟩⟩
        · simp [say] at h4
        · simp [say] at h4
        · simp [say] at h4
        · simp [say] at h4
        · simp at hlen
          omega),
   (fd_add_keyval_spec env0 fd1 (say "foo :is bar") [] []).2.2.1
      "foo".toList "foo is bar".toList _ (by decide) rfl⟩

/-! ## Add: the split parts -/

/-- C10: the addressed `foo :IS bar` is classified as an add, its text split
at `:is` is the one piece `foo :IS bar`, there is no `kv[1]`, and the handler
panics. -/
theorem add_uppercase_is_panics :
    (fd_privmsg env0 (say "foo :IS bar")).1 = Event.fd_add
      ∧ Split (say "foo :IS bar").Args1 ":is".toList 2 = ["foo :IS bar".toList]
      ∧ (Split (say "foo :IS bar").Args1 ":is".toList 2)[1]? = none
      ∧ bot_privmsg env0 fd0 (say "foo :IS bar") = none := by
  decide

/-! ## The GitHub poller: truncation of the comment -/

/-- The slice `s[:idx]` panics exactly when `idx` is outside `0 .. len(s)`. -/
theorem sliceTo_eq_none_iff (s : Str) (idx : Int) :
    sliceTo s idx = none ↔ idx < 0 ∨ (s.length : Int) < idx := by
  unfold sliceTo
  split
  · rename_i h
    constructor
    · intro hn
      cases hn
    · intro hor
      omega
  · rename_i h
    constructor
    · intro _
      omega
    · intro _
      rfl

/-- The comment part of `String` panics exactly when the comment is longer
than 100, contains a blank, and its first blank is less than 100 short of its
end. -/
theorem ghUpdate_truncated_eq_none_iff (u : ghUpdate) :
    u.truncated = none
      ↔ 100 < u.comment.length ∧ 0 ≤ Index u.comment " ".toList
        ∧ (u.comment.length : Int) < Index u.comment " ".toList + 100 := by
  unfold ghUpdate.truncated
  by_cases hlen : u.comment.length > 100
  · rw [if_pos hlen]
    dsimp only
    by_cases hidx : Index u.comment " ".toList + 100 ≥ 100
    · rw [if_pos hidx]
      cases hs : sliceTo u.comment (Index u.comment " ".toList + 100) with
      | none =>
        have := (sliceTo_eq_none_iff _ _).1 hs
        constructor
        · intro _
          refine ⟨hlen, by omega, by omega⟩
        · intro _
          rfl
      | some c =>
        have hne : ¬ (Index u.comment " ".toList + 100 < 0
            ∨ (u.comment.length : Int) < Index u.comment " ".toList + 100) := by
          intro hor
          rw [(sliceTo_eq_none_iff _ _).2 hor] at hs
          cases hs
        constructor
        · intro h
          cases h
        · intro h
          exact absurd (Or.inr h.2.2) hne
    · rw [if_neg hidx]
      constructor
      · intro h
        cases h
      · intro h
        omega
  · rw [if_neg hlen]
    constructor
    · intro h
      cases h
    · intro h
      exact absurd h.1 hlen

/-- The method `String` panics exactly when its comment part does. -/
theorem ghUpdate_String_eq_none_iff (u : ghUpdate) :
    u.String = none
      ↔ 100 < u.comment.length ∧ 0 ≤ Index u.comment " ".toList
        ∧ (u.comment.length : Int) < Index u.comment " ".toList + 100 := by
  rw [← ghUpdate_truncated_eq_none_iff]
  unfold ghUpdate.String
  dsimp only
  by_cases hc : u.comment ≠ []
  · rw [if_pos hc]
    cases ht : u.truncated with
    | none => simp
    | some p => simp
  · rw [if_neg hc]
    have he : u.comment = [] := by
      by_contra h
      exact hc h
    have ht : u.truncated = some (" ".toList, u.comment) := by
      unfold ghUpdate.truncated
      rw [if_neg (by simp [he])]
    rw [ht]
    simp

/-- Whenever the comment part of `String` returns, the comment it renders is
the whole comment with the marker ` `, or a part the comment starts with,
followed by `...`, with the marker ` (truncated) `. -/
theorem ghUpdate_truncated_shape (u : ghUpdate) (trunc c : Str)
    (h : u.truncated = some (trunc, c)) :
    (trunc = " ".toList ∧ c = u.comment)
      ∨ (trunc = " (truncated) ".toList
          ∧ ∃ pre, pre <+: u.comment ∧ c = pre ++ "...".toList) := by
  unfold ghUpdate.truncated at h
  split at h
  · dsimp only at h
    split at h
    · split at h
      · cases h
      · rename_i c0 hs
        injection h with h
        injection h with h1 h2
        right
        refine ⟨h1.symm, c0, ?_, h2.symm⟩
        unfold sliceTo at hs
        split at hs
        · injection hs with hs
          rw [← hs]
          exact List.take_prefix _ _
        · cases hs
    · injection h with h
      injection h with h1 h2
      exact Or.inl ⟨h1.symm, h2.symm⟩
  · injection h with h
    injection h with h1 h2
    exact Or.inl ⟨h1.symm, h2.symm⟩

/-- The bytes of a text are as many as `byteLen` counts. -/
theorem utf8_length (t : Str) : (utf8 t).length = byteLen t := by
  unfold byteLen
  induction t with
  | nil => rfl
  | cons c cs ih =>
    have h1 : (utf8Char c).length = utf8Len c := by
      unfold utf8Char utf8Len
      split_ifs <;> rfl
    simp only [utf8, List.length_append, List.map_cons, List.sum_cons, ih, h1]

set_option maxRecDepth 100000 in
/-- Sample comments outside ASCII, a euro sign being three bytes: `fixed ` and
96 euro signs (294 bytes) is cut after 105 bytes, that is after 33 euro signs;
`a ` and 40 euro signs (122 bytes) is cut after 101 bytes, again after 33 euro
signs. -/
theorem ghUpdate_truncated_utf8_samples :
    (update0 (utf8 ("fixed ".toList ++ List.replicate 96 '€'))).truncated
        = some (" (truncated) ".toList,
            utf8 ("fixed ".toList ++ List.replicate 33 '€') ++ "...".toList)
      ∧ (update0 (utf8 ("a ".toList ++ List.replicate 40 '€'))).truncated
        = some (" (truncated) ".toList,
            utf8 ("a ".toList ++ List.replicate 33 '€') ++ "...".toList) := by
  decide

/-- C11: for the sample update whose comment is `fixed ` and 96 times `x`
(102 bytes, first blank at index 5), `idx` is `105`, beyond the length
of the comment, the slice `comment[:idx]` panics, and so does `String`. -/
theorem ghUpdate_String_panics :
    comment102.length = 102
      ∧ Index comment102 " ".toList = 5
      ∧ sliceTo comment102 (Index comment102 " ".toList + 100) = none
      ∧ (update0 comment102).String = none := by
  decide

end Sp0rkle
